import Mathlib

/-!
# Verification of the helm-data-downloader run-discovery-and-resumable-fetch engine

This file gives a shallow embedding, in Lean, of the core of the
`helm-data-downloader` repository and proves the specified properties of it.

The embedded pieces are:

* `path_safe_id` — `RunInfo.path_safe_id` from `src/helm_data_downloader/shared.py`
  (and identically `src/helmdd/helm.py`, `src/helm_data_downloader/download.py`),
  i.e. `urllib.parse.quote(self.id, safe="")`: the id is UTF-8 encoded and every
  byte outside urllib's `ALWAYS_SAFE` set (ASCII letters, digits, `_.-~`) is
  written as `%XX` with uppercase hex digits.
* the completion checker / fetch planner / download loop of
  `src/helm_data_downloader/helm.py` (`run`, lines 101-152), which is the same
  code as `src/helmdd/helm.py` (`download_project`, lines 177-224) and
  `src/helm_data_downloader/heim.py` (lines 94-132);
* the completion checker and unconditional-write download loop of
  `src/helm_data_downloader/download.py` (`run`, lines 103-141);
* the storage-URL resolution of `helm.py` (lines 60-76) and of
  `helmdd/helm.py` (lines 136-149), which differ in their failure behaviour.

The filesystem is modelled as the list of existing paths, a path being its list
of components; the HTTP transport is modelled as an oracle from URL to response,
and the outcome of the fallible remote steps (config.js fetch + regex search,
`run_specs.json` parse) as `Option`-valued inputs, `none` meaning the Python
`try` block raised (respectively `json.JSONDecodeError` was raised).
-/

/-! ## Percent-encoding (`urllib.parse.quote(id, safe="")`) -/

/-- urllib's `ALWAYS_SAFE` byte set: ASCII letters, digits and `_` `.` `-` `~`.
With `safe=""` these are exactly the bytes `quote` leaves unescaped. -/
def isAlwaysSafe (b : Nat) : Bool :=
  (65 ≤ b && b ≤ 90) || (97 ≤ b && b ≤ 122) || (48 ≤ b && b ≤ 57) ||
    b == 95 || b == 46 || b == 45 || b == 126

/-- Uppercase hexadecimal digit, as used by `quote`'s `%{:02X}` escapes. -/
def hexDigitChar (n : Nat) : Char :=
  if n < 10 then Char.ofNat (48 + n) else Char.ofNat (55 + n)

/-- How `urllib.parse.quote` renders a single byte of the UTF-8 encoded input:
kept verbatim when always-safe, otherwise escaped as `%XX`. -/
def quoteByte (b : Nat) : List Char :=
  if isAlwaysSafe b then [Char.ofNat b]
  else ['%', hexDigitChar (b / 16), hexDigitChar (b % 16)]

/-- UTF-8 encoding of one character (the `str.encode("utf-8")` step that
`urllib.parse.quote` performs on `str` input), as byte values. -/
def utf8EncodeCharB (c : Char) : List Nat :=
  let v := c.toNat
  if v < 128 then [v]
  else if v < 2048 then [192 + v / 64, 128 + v % 64]
  else if v < 65536 then [224 + v / 4096, 128 + v / 64 % 64, 128 + v % 64]
  else [240 + v / 262144, 128 + v / 4096 % 64, 128 + v / 64 % 64, 128 + v % 64]

/-- The UTF-8 byte string of a run id. -/
def utf8Bytes (s : String) : List Nat := s.data.flatMap utf8EncodeCharB

/-- Embedding of `RunInfo.path_safe_id` (shared.py line 26, helmdd/helm.py line 75,
download.py line 28): `urllib.parse.quote(self.id, safe="")`. -/
def path_safe_id (id : String) : String := ⟨(utf8Bytes id).flatMap quoteByte⟩

/-- Value of a hexadecimal digit character (both cases), `none` otherwise. -/
def hexVal (c : Char) : Option Nat :=
  let n := c.toNat
  if 48 ≤ n ∧ n ≤ 57 then some (n - 48)
  else if 65 ≤ n ∧ n ≤ 70 then some (n - 55)
  else if 97 ≤ n ∧ n ≤ 102 then some (n - 87)
  else none

/-- Percent-decoding to bytes: each `%XX` becomes the byte `XX`, any other
character stands for its own code point. -/
def pctUnquote : List Char → Option (List Nat)
  | [] => some []
  | c :: rest =>
    if c = '%' then
      match rest with
      | hd :: ld :: rest2 =>
        match hexVal hd, hexVal ld, pctUnquote rest2 with
        | some hv, some lv, some bs => some ((16 * hv + lv) :: bs)
        | _, _, _ => none
      | _ => none
    else
      match pctUnquote rest with
      | some bs => some (c.toNat :: bs)
      | none => none

/-- Continuation of a 2-byte UTF-8 sequence started by `b0`. -/
def decodeTwo (b0 : Nat) : List Nat → Option (Char × List Nat)
  | b1 :: rest2 =>
    if 128 ≤ b1 ∧ b1 ≤ 191 then
      some (Char.ofNat ((b0 - 192) * 64 + (b1 - 128)), rest2)
    else none
  | [] => none

/-- Continuation of a 3-byte UTF-8 sequence started by `b0` (the value check
rejects overlong forms). -/
def decodeThree (b0 : Nat) : List Nat → Option (Char × List Nat)
  | b1 :: b2 :: rest2 =>
    if (128 ≤ b1 ∧ b1 ≤ 191) ∧ (128 ≤ b2 ∧ b2 ≤ 191) then
      if 2048 ≤ (b0 - 224) * 4096 + (b1 - 128) * 64 + (b2 - 128) then
        some (Char.ofNat ((b0 - 224) * 4096 + (b1 - 128) * 64 + (b2 - 128)), rest2)
      else none
    else none
  | _ => none

/-- Continuation of a 4-byte UTF-8 sequence started by `b0` (the value check
rejects overlong forms and out-of-range values). -/
def decodeFour (b0 : Nat) : List Nat → Option (Char × List Nat)
  | b1 :: b2 :: b3 :: rest2 =>
    if (128 ≤ b1 ∧ b1 ≤ 191) ∧ ((128 ≤ b2 ∧ b2 ≤ 191) ∧ (128 ≤ b3 ∧ b3 ≤ 191)) then
      if 65536 ≤ (b0 - 240) * 262144 + (b1 - 128) * 4096 + (b2 - 128) * 64 + (b3 - 128) ∧
          (b0 - 240) * 262144 + (b1 - 128) * 4096 + (b2 - 128) * 64 + (b3 - 128) < 1114112 then
        some (Char.ofNat ((b0 - 240) * 262144 + (b1 - 128) * 4096 + (b2 - 128) * 64 + (b3 - 128)),
          rest2)
      else none
    else none
  | _ => none

/-- Dispatch on the leading byte of a UTF-8 sequence. -/
def decodeByte (b0 : Nat) (rest : List Nat) : Option (Char × List Nat) :=
  if b0 < 128 then some (Char.ofNat b0, rest)
  else if 194 ≤ b0 ∧ b0 ≤ 223 then decodeTwo b0 rest
  else if 224 ≤ b0 ∧ b0 ≤ 239 then decodeThree b0 rest
  else if 240 ≤ b0 ∧ b0 ≤ 244 then decodeFour b0 rest
  else none

/-- Decode one character from the front of a UTF-8 byte string. -/
def utf8DecodeOne : List Nat → Option (Char × List Nat)
  | [] => none
  | b0 :: rest => decodeByte b0 rest

/-- The decoding loop, running on fuel; each decoded character consumes at
least one byte, so `l.length` fuel always suffices. -/
def utf8DecodeAux : Nat → List Nat → Option (List Char)
  | _, [] => some []
  | 0, _ :: _ => none
  | fuel + 1, b0 :: rest =>
    match utf8DecodeOne (b0 :: rest) with
    | some (c, rest2) => (utf8DecodeAux fuel rest2).map (fun cs => c :: cs)
    | none => none

/-- Strict UTF-8 decoder (rejects truncated sequences and overlong forms). -/
def utf8Decode (l : List Nat) : Option (List Char) := utf8DecodeAux l.length l

/-- Full percent-decoding of a string back to a string: percent-decode to the
UTF-8 byte string, then UTF-8 decode. -/
def percentDecode (s : String) : Option String :=
  match pctUnquote s.data with
  | some bs =>
    match utf8Decode bs with
    | some cs => some ⟨cs⟩
    | none => none
  | none => none

/-! ## Filesystem and data model -/

/-- A filesystem path, as its list of components (Python `Path` segments). -/
abbrev FPath := List String

/-- The filesystem state: the list of paths (directories and files) that
exist.  Presence of a path in the list is what Python's `Path.exists()`
observes; ancestors of a created path are considered implied. -/
abbrev FState := List FPath

/-- Python `Path.exists()` against the modelled filesystem state. -/
def pexists (fs : FState) (p : FPath) : Bool := p ∈ fs

/-- Making a path exist (used for `mkdir(parents=True, exist_ok=True)` and for
file writes); idempotent, as `exist_ok=True` demands. -/
def insertPath (fs : FState) (p : FPath) : FState :=
  if p ∈ fs then fs else p :: fs

/-- The dataclass `RunInfo` from `src/helmdd/helm.py` (lines 69-75): a run's raw id and the
suite it was executed under.  (`helm.py` constructs exactly these two fields at
line 99; `shared.py`'s dataclass it imports lacks the `suite` field, so we
follow the self-consistent `helmdd` definition, which is what `helm.py` uses.) -/
structure RunInfo where
  id : String
  suite : String
deriving Repr, DecidableEq

/-- The dataclass `RunInfo` from `src/helm_data_downloader/download.py` (lines 23-28):
only the raw id. -/
structure DlRunInfo where
  id : String
deriving Repr, DecidableEq

/-- An HTTP response: status code and body (kept opaque, as the engine never
interprets artifact contents). -/
structure HttpResponse where
  status : Nat
  content : String
deriving Repr, DecidableEq

/-! ## Completion checker and fetch planner (`helm.py` lines 114-135) -/

/-- The run's local directory `output_dir / run.path_safe_id()`
(`helm.py` line 116). -/
def runDir (outputDir : FPath) (r : RunInfo) : FPath :=
  outputDir ++ [path_safe_id r.id]

/-- Embedding of `is_downloaded` from `helm.py` lines 115-117 (identical in
`helmdd/helm.py` lines 187-189 and `heim.py` lines 95-97):
`all((run_dir / f"{file}").exists() for file in run_files)`.
Note the run directory itself is never tested. -/
def is_downloaded (fs : FState) (outputDir : FPath) (runFiles : List String)
    (r : RunInfo) : Bool :=
  runFiles.all fun f => pexists fs (runDir outputDir r ++ [f])

/-- Embedding of `already_downloaded` from `helm.py` line 119: the set of ids of manifest
runs whose `is_downloaded` check passes (kept as a list of ids). -/
def already_downloaded (runs : List RunInfo) (fs : FState) (outputDir : FPath)
    (runFiles : List String) : List String :=
  (runs.filter (is_downloaded fs outputDir runFiles)).map RunInfo.id

/-- Embedding of `runs_to_download` before sorting, from `helm.py` line 120:
`[run for run in runs if run.id not in already_downloaded]`. -/
def runs_to_download (runs : List RunInfo) (fs : FState) (outputDir : FPath)
    (runFiles : List String) : List RunInfo :=
  runs.filter fun r => !(already_downloaded runs fs outputDir runFiles).contains r.id

/-- Code-point lexicographic order on strings, as `List Char` comparison:
this is exactly how Python compares two `str` keys in `sorted`. -/
def charListLe : List Char → List Char → Bool
  | [], _ => true
  | _ :: _, [] => false
  | a :: as, b :: bs =>
    if a.toNat < b.toNat then true
    else if b.toNat < a.toNat then false
    else charListLe as bs

/-- The sort key comparison of `helm.py` line 121
(`sorted(runs_to_download, key=lambda run: run.id)`). -/
def runIdLe (a b : RunInfo) : Bool := charListLe a.id.data b.id.data

/-- Insert a run into a list sorted by id, before the first entry it compares
`≤` to (elements with equal ids stay in their original relative order). -/
def insertRun (r : RunInfo) : List RunInfo → List RunInfo
  | [] => [r]
  | x :: xs => if runIdLe r x = true then r :: x :: xs else x :: insertRun r xs

/-- Embedding of `sorted(runs_to_download, key=lambda run: run.id)` (`helm.py` line 121):
Python's `sorted` is a stable sort by the raw id, and a stable sort is
uniquely determined by its comparison, so this stable insertion sort
produces the same list. -/
def sortRuns : List RunInfo → List RunInfo
  | [] => []
  | r :: rs => insertRun r (sortRuns rs)

/-- Python's `xs[:stop]` slice (`helm.py` line 135, `runs_to_download[:args.max_runs]`):
`None` keeps everything, a negative stop counts from the end. -/
def pySlice (stop : Option Int) (xs : List α) : List α :=
  match stop with
  | none => xs
  | some n => if 0 ≤ n then xs.take n.toNat else xs.take (xs.length - (-n).toNat)

/-- The final download queue of `helm.py` lines 119-135: filter out complete
runs, sort by raw id, truncate to `max_runs`.  The `redownload` flag is taken
as an argument but — exactly as in the source (lines 124-127, where it only
selects a log message) — it is never consulted when building the queue. -/
def planQueue (redownload : Bool) (runs : List RunInfo) (fs : FState)
    (outputDir : FPath) (runFiles : List String) (maxRuns : Option Int) :
    List RunInfo :=
  pySlice maxRuns (sortRuns (runs_to_download runs fs outputDir runFiles))

/-! ## Download loop (`helm.py` lines 133-152) -/

/-- Accumulated effects of one invocation: filesystem after, directories this
invocation created, artifact URLs fetched, `(path, body)` pairs written, and
whether the loop raised (the `raise Exception` of `helm.py` line 152). -/
structure Effects where
  fs : FState
  createdDirs : List FPath
  artifactFetches : List String
  written : List (FPath × String)
  raised : Bool
deriving Repr, DecidableEq

/-- Effects at the start of an invocation against filesystem `fs0`. -/
def initEff (fs0 : FState) : Effects :=
  { fs := fs0, createdDirs := [], artifactFetches := [], written := [], raised := false }

/-- Embedding of `mkdir(parents=True, exist_ok=True)`, recording the creation when the
directory did not yet exist. -/
def mkdirRec (e : Effects) (p : FPath) : Effects :=
  if pexists e.fs p then e
  else { e with fs := p :: e.fs, createdDirs := e.createdDirs ++ [p] }

/-- The artifact URL `{storage_url}/runs/{run.suite}/{run.id}/{file_name}`
(`helm.py` lines 142-144). -/
def fileUrl (storageUrl : String) (r : RunInfo) (fname : String) : String :=
  storageUrl ++ "/runs/" ++ r.suite ++ "/" ++ r.id ++ "/" ++ fname

/-- Record a file write. -/
def writeFile (e : Effects) (p : FPath) (body : String) : Effects :=
  { e with fs := insertPath e.fs p, written := e.written ++ [(p, body)] }

/-- The per-file inner loop of `helm.py` lines 143-152: fetch each required
file; on status 200 write it, otherwise write `{file_name}.error` and raise. -/
def fetchFilesForRun (http : String → HttpResponse) (storageUrl : String)
    (rd : FPath) (r : RunInfo) : List String → Effects → Effects
  | [], e => e
  | fname :: rest, e =>
    let resp := http (fileUrl storageUrl r fname)
    let e := { e with artifactFetches := e.artifactFetches ++ [fileUrl storageUrl r fname] }
    if resp.status == 200 then
      fetchFilesForRun http storageUrl rd r rest (writeFile e (rd ++ [fname]) resp.content)
    else
      { writeFile e (rd ++ [fname ++ ".error"]) resp.content with raised := true }

/-- The per-run loop of `helm.py` lines 135-152: skip the body when
`dry_run`, else create the run directory, then fetch its files; an exception
aborts the whole batch. -/
def downloadRuns (http : String → HttpResponse) (storageUrl : String)
    (outputDir : FPath) (runFiles : List String) (dryRun : Bool) :
    List RunInfo → Effects → Effects
  | [], e => e
  | r :: rest, e =>
    if dryRun then downloadRuns http storageUrl outputDir runFiles dryRun rest e
    else
      let e := mkdirRec e (runDir outputDir r)
      let e := fetchFilesForRun http storageUrl (runDir outputDir r) r runFiles e
      if e.raised then e
      else downloadRuns http storageUrl outputDir runFiles dryRun rest e

/-! ## Release and storage-URL resolution -/

/-- Storage-URL resolution of `helm.py` lines 60-76.  `autoStorage` is the
outcome of the `try` block (config.js fetch plus
`re.search(r'window.BENCHMARK_OUTPUT_BASE_URL =\s+"(.*)";', ...)`), `none`
meaning it raised.  A manual `--storage-url` takes precedence; on discovery
failure the hardcoded default is used and execution continues. -/
def getStorageUrl (storageArg : Option String) (autoStorage : Option String) : String :=
  match storageArg with
  | some u => u
  | none =>
    match autoStorage with
    | some u => u
    | none => "https://storage.googleapis.com/crfm-helm-public/"

/-- Storage-URL resolution of `helmdd/helm.py` lines 136-153.  The `except`
branch there only prints advice and assigns nothing, so the following
`storage_url.rstrip("/")` (line 152) raises `UnboundLocalError`: resolution
failure aborts the invocation instead of falling back to a default. -/
def helmddStorageUrl (storageArg : Option String) (autoStorage : Option String) :
    Except String String :=
  match storageArg with
  | some u => Except.ok u
  | none =>
    match autoStorage with
    | some u => Except.ok u
    | none => Except.error "UnboundLocalError: local variable storage_url referenced before assignment"

/-- Embedding of `storage_url.rstrip("/")` (`helm.py` line 79): drop trailing `/`
characters. -/
def rstripSlash (s : String) : String :=
  ⟨(s.data.reverse.dropWhile (fun c => c = '/')).reverse⟩

/-! ## The `helm.py` invocation pipeline (`run`, lines 42-152) -/

/-- Counts and effects of one `helm.py` invocation.  `found`/`already`/
`toDownload` are the numbers printed at lines 122-127 (`none` when the
invocation exits before reaching them). -/
structure Outcome where
  exitCode : Nat
  found : Option Nat
  already : Option Nat
  toDownload : Option Nat
  eff : Effects
deriving Repr, DecidableEq

/-- The whole of `helm.py`'s `run` (lines 42-152) over the modelled inputs.

`autoRelease` is the outcome of the release-discovery `try` block (lines
44-55), `autoStorage` that of the storage-URL block (lines 61-73),
`runSpecsResp` the parse of the `run_specs.json` response (lines 85-93,
`none` = `json.JSONDecodeError`), `suites` the `runs_to_run_suites.json`
mapping (line 98), `http` the artifact transport, `fs0` the filesystem at
entry.  `sys.exit(1)` is modelled as exit code 1 with the effects gathered so
far; an uncaught download exception also ends the process with exit code 1. -/
def helmRun (releaseArg : String) (outputDirArg : Option FPath)
    (storageArg : Option String) (redownload : Bool) (maxRuns : Option Int)
    (dryRun : Bool) (runFiles : List String) (autoRelease : Option String)
    (autoStorage : Option String) (runSpecsResp : Option (List String))
    (suites : String → String) (http : String → HttpResponse) (fs0 : FState) :
    Outcome :=
  match (if releaseArg = "latest" then autoRelease else some releaseArg) with
  | none =>
    { exitCode := 1, found := none, already := none, toDownload := none, eff := initEff fs0 }
  | some release =>
    let storageUrl := rstripSlash (getStorageUrl storageArg autoStorage)
    match runSpecsResp with
    | none =>
      { exitCode := 1, found := none, already := none, toDownload := none, eff := initEff fs0 }
    | some names =>
      let runs := names.map fun id => RunInfo.mk id (suites id)
      let outputDir := outputDirArg.getD ["helm-data", release]
      let alreadyIds := already_downloaded runs fs0 outputDir runFiles
      let pending := sortRuns (runs_to_download runs fs0 outputDir runFiles)
      let e := mkdirRec (initEff fs0) outputDir
      let e := downloadRuns http storageUrl outputDir runFiles dryRun (pySlice maxRuns pending) e
      { exitCode := if e.raised then 1 else 0,
        found := some runs.length,
        already := some alreadyIds.length,
        toDownload := some pending.length,
        eff := e }

/-! ## The `download.py` variant (`run`, lines 103-141) -/

/-- The three files `download.py` handles (lines 106-108 and 136-141). -/
def dlFiles : List String := ["run_spec.json", "scenario_state.json", "scenario.json"]

/-- The run's local directory in the `download.py` variant. -/
def dlRunDir (outputDir : FPath) (r : DlRunInfo) : FPath :=
  outputDir ++ [path_safe_id r.id]

/-- The completeness check of `download.py` lines 104-109: the run directory
exists and `run_spec.json`, `scenario_state.json`, `scenario.json` exist. -/
def dlIsDownloaded (fs : FState) (outputDir : FPath) (r : DlRunInfo) : Bool :=
  pexists fs (dlRunDir outputDir r) &&
  pexists fs (dlRunDir outputDir r ++ ["run_spec.json"]) &&
  pexists fs (dlRunDir outputDir r ++ ["scenario_state.json"]) &&
  pexists fs (dlRunDir outputDir r ++ ["scenario.json"])

/-- Embedding of `already_downloaded` of `download.py` lines 104-109. -/
def dlAlready (runs : List DlRunInfo) (fs : FState) (outputDir : FPath) : List String :=
  (runs.filter (dlIsDownloaded fs outputDir)).map DlRunInfo.id

/-- Embedding of `runs_to_download` of `download.py` line 110 (this variant never sorts). -/
def dlRunsToDownload (runs : List DlRunInfo) (fs : FState) (outputDir : FPath) :
    List DlRunInfo :=
  runs.filter fun r => !(dlAlready runs fs outputDir).contains r.id

/-- The download queue of `download.py` lines 110 and 125: this variant
never sorts — `runs_to_download[:args.max_runs]` truncates the pending list
in manifest fetch order. -/
def dlPlanQueue (runs : List DlRunInfo) (fs : FState) (outputDir : FPath)
    (maxRuns : Option Int) : List DlRunInfo :=
  pySlice maxRuns (dlRunsToDownload runs fs outputDir)

/-- One iteration of the download loop of `download.py` lines 129-141: create
the run directory, fetch the three files, and write each response body to its
target artifact filename with no status check.  Returns the filesystem after
and the `(path, body)` writes performed. -/
def dlProcessRun (http : String → HttpResponse) (storageUrl : String)
    (outputDir : FPath) (fs : FState) (r : DlRunInfo) :
    FState × List (FPath × String) :=
  let rd := dlRunDir outputDir r
  let fs := insertPath fs rd
  let runSpec := http (storageUrl ++ "/runs/" ++ r.id ++ "/run_spec.json")
  let scenarioState := http (storageUrl ++ "/runs/" ++ r.id ++ "/scenario_state.json")
  let scenario := http (storageUrl ++ "/runs/" ++ r.id ++ "/scenario.json")
  let fs := insertPath fs (rd ++ ["run_spec.json"])
  let fs := insertPath fs (rd ++ ["scenario_state.json"])
  let fs := insertPath fs (rd ++ ["scenario.json"])
  (fs, [(rd ++ ["run_spec.json"], runSpec.content),
        (rd ++ ["scenario_state.json"], scenarioState.content),
        (rd ++ ["scenario.json"], scenario.content)])

/-! ## Spec-side completeness predicate (for comparison with `is_downloaded`) -/

/-- The completeness predicate in the spec's words (spec section 4.4: "A run
is complete iff its local directory `output_dir / path_safe_id(run)` exists
AND every file name in `required_files` exists ... directly inside that
directory"), stated over the same filesystem model, for comparison with the
source's `is_downloaded`. -/
def specComplete (fs : FState) (outputDir : FPath) (runFiles : List String)
    (r : RunInfo) : Bool :=
  pexists fs (runDir outputDir r) &&
  runFiles.all fun f => pexists fs (runDir outputDir r ++ [f])

/-! ## Helper lemmas: characters and percent-encoding -/

lemma toNat_ofNat_of_valid (n : Nat) (h : Nat.isValidChar n) : (Char.ofNat n).toNat = n := by
  unfold Char.ofNat
  rw [dif_pos h]
  unfold Char.ofNatAux Char.toNat UInt32.toNat
  simp

lemma char_toNat_lt (c : Char) : c.toNat < 1114112 := by
  have h := c.valid
  unfold Char.toNat
  rcases h with h | h <;> omega

lemma utf8EncodeCharB_lt (c : Char) : ∀ b ∈ utf8EncodeCharB c, b < 256 := by
  intro b hb
  have hv := char_toNat_lt c
  simp only [utf8EncodeCharB] at hb
  split_ifs at hb <;>
    simp only [List.mem_cons, List.not_mem_nil, or_false] at hb <;>
    omega

lemma utf8Bytes_lt (s : String) : ∀ b ∈ utf8Bytes s, b < 256 := by
  intro b hb
  rw [utf8Bytes, List.mem_flatMap] at hb
  obtain ⟨c, _, hmem⟩ := hb
  exact utf8EncodeCharB_lt c b hmem

lemma utf8EncodeCharB_ne_nil (c : Char) : utf8EncodeCharB c ≠ [] := by
  simp only [utf8EncodeCharB]
  split_ifs <;> simp

lemma utf8DecodeOne_encode (c : Char) (bs : List Nat) :
    utf8DecodeOne (utf8EncodeCharB c ++ bs) = some (c, bs) := by
  have hlt := char_toNat_lt c
  by_cases h1 : c.toNat < 128
  · have he : utf8EncodeCharB c = [c.toNat] := by simp [utf8EncodeCharB, h1]
    rw [he]
    show decodeByte c.toNat bs = some (c, bs)
    unfold decodeByte
    rw [if_pos h1, Char.ofNat_toNat]
  · by_cases h2 : c.toNat < 2048
    · have he : utf8EncodeCharB c = [192 + c.toNat / 64, 128 + c.toNat % 64] := by
        simp [utf8EncodeCharB, h1, h2]
      rw [he]
      show decodeByte (192 + c.toNat / 64) ((128 + c.toNat % 64) :: bs) = some (c, bs)
      unfold decodeByte
      rw [if_neg (by omega), if_pos ⟨by omega, by omega⟩]
      simp only [decodeTwo]
      rw [if_pos ⟨by omega, by omega⟩,
        show (192 + c.toNat / 64 - 192) * 64 + (128 + c.toNat % 64 - 128) = c.toNat by omega,
        Char.ofNat_toNat]
    · by_cases h3 : c.toNat < 65536
      · have he : utf8EncodeCharB c =
            [224 + c.toNat / 4096, 128 + c.toNat / 64 % 64, 128 + c.toNat % 64] := by
          simp [utf8EncodeCharB, h1, h2, h3]
        rw [he]
        show decodeByte (224 + c.toNat / 4096)
          ((128 + c.toNat / 64 % 64) :: ((128 + c.toNat % 64) :: bs)) = some (c, bs)
        unfold decodeByte
        rw [if_neg (by omega), if_neg (by omega), if_pos ⟨by omega, by omega⟩]
        simp only [decodeThree]
        rw [if_pos ⟨⟨by omega, by omega⟩, by omega, by omega⟩, if_pos (by omega),
          show (224 + c.toNat / 4096 - 224) * 4096 + (128 + c.toNat / 64 % 64 - 128) * 64 +
            (128 + c.toNat % 64 - 128) = c.toNat by omega,
          Char.ofNat_toNat]
      · have he : utf8EncodeCharB c =
            [240 + c.toNat / 262144, 128 + c.toNat / 4096 % 64,
              128 + c.toNat / 64 % 64, 128 + c.toNat % 64] := by
          simp [utf8EncodeCharB, h1, h2, h3]
        rw [he]
        show decodeByte (240 + c.toNat / 262144)
          ((128 + c.toNat / 4096 % 64) ::
            ((128 + c.toNat / 64 % 64) :: ((128 + c.toNat % 64) :: bs))) = some (c, bs)
        unfold decodeByte
        rw [if_neg (by omega), if_neg (by omega), if_neg (by omega),
          if_pos ⟨by omega, by omega⟩]
        simp only [decodeFour]
        rw [if_pos ⟨⟨by omega, by omega⟩, ⟨by omega, by omega⟩, by omega, by omega⟩,
          if_pos ⟨by omega, by omega⟩,
          show (240 + c.toNat / 262144 - 240) * 262144 + (128 + c.toNat / 4096 % 64 - 128) * 4096 +
            (128 + c.toNat / 64 % 64 - 128) * 64 + (128 + c.toNat % 64 - 128) = c.toNat by omega,
          Char.ofNat_toNat]

lemma utf8DecodeAux_flat : ∀ (cs : List Char) (fuel : Nat),
    (cs.flatMap utf8EncodeCharB).length ≤ fuel →
    utf8DecodeAux fuel (cs.flatMap utf8EncodeCharB) = some cs := by
  intro cs
  induction cs with
  | nil => intro fuel h; rw [List.flatMap_nil]; cases fuel <;> rfl
  | cons c cs ih =>
    intro fuel h
    rw [List.flatMap_cons] at h ⊢
    have hex : ∃ b0 t, utf8EncodeCharB c = b0 :: t := by
      cases hc : utf8EncodeCharB c with
      | nil => exact absurd hc (utf8EncodeCharB_ne_nil c)
      | cons b0 t => exact ⟨b0, t, rfl⟩
    obtain ⟨b0, t, he⟩ := hex
    · rw [he] at h ⊢
      rw [List.cons_append]
      cases fuel with
      | zero => simp at h
      | succ f =>
        have hone : utf8DecodeOne (b0 :: (t ++ cs.flatMap utf8EncodeCharB)) =
            some (c, cs.flatMap utf8EncodeCharB) := by
          rw [← List.cons_append, ← he]
          exact utf8DecodeOne_encode c _
        rw [utf8DecodeAux, hone]
        show Option.map (fun cs => c :: cs) (utf8DecodeAux f (cs.flatMap utf8EncodeCharB)) =
          some (c :: cs)
        rw [ih f (by simp only [List.length_cons, List.length_append] at h; omega)]
        rfl

lemma utf8Decode_flat (cs : List Char) :
    utf8Decode (cs.flatMap utf8EncodeCharB) = some cs :=
  utf8DecodeAux_flat cs _ le_rfl

lemma isAlwaysSafe_spec (b : Nat) : isAlwaysSafe b = true ↔
    (65 ≤ b ∧ b ≤ 90) ∨ (97 ≤ b ∧ b ≤ 122) ∨ (48 ≤ b ∧ b ≤ 57) ∨
      b = 95 ∨ b = 46 ∨ b = 45 ∨ b = 126 := by
  simp [isAlwaysSafe]
  omega

lemma hexDigitChar_toNat10 (n : Nat) (h : n < 10) : (hexDigitChar n).toNat = 48 + n := by
  unfold hexDigitChar
  rw [if_pos h]
  exact toNat_ofNat_of_valid _ (Or.inl (by omega))

lemma hexDigitChar_toNat16 (n : Nat) (h10 : ¬ n < 10) (h : n < 16) :
    (hexDigitChar n).toNat = 55 + n := by
  unfold hexDigitChar
  rw [if_neg h10]
  exact toNat_ofNat_of_valid _ (Or.inl (by omega))

lemma hexVal_hexDigitChar (n : Nat) (h : n < 16) : hexVal (hexDigitChar n) = some n := by
  by_cases h10 : n < 10
  · have ht := hexDigitChar_toNat10 n h10
    unfold hexVal
    rw [ht, if_pos (by omega)]
    congr 1
    omega
  · have ht := hexDigitChar_toNat16 n h10 h
    unfold hexVal
    rw [ht, if_neg (by omega), if_pos (by omega)]
    congr 1
    omega

lemma pctUnquote_cons_ne (c : Char) (hne : c ≠ '%') (cs : List Char) :
    pctUnquote (c :: cs) = (pctUnquote cs).map (fun bs => c.toNat :: bs) := by
  cases cs with
  | nil =>
    rw [pctUnquote.eq_3]
    · rw [if_neg hne]; rfl
    · intro hd ld rest2 hcontra; simp at hcontra
  | cons hd tl =>
    cases tl with
    | nil =>
      rw [pctUnquote.eq_3]
      · rw [if_neg hne]; cases pctUnquote [hd] <;> rfl
      · intro hd2 ld rest2 hcontra; simp at hcontra
    | cons ld rest2 =>
      rw [pctUnquote.eq_2, if_neg hne]
      cases pctUnquote (hd :: ld :: rest2) <;> rfl

lemma pctUnquote_quoteByte (b : Nat) (hb : b < 256) (cs : List Char) :
    pctUnquote (quoteByte b ++ cs) = (pctUnquote cs).map (fun bs => b :: bs) := by
  unfold quoteByte
  by_cases hsafe : isAlwaysSafe b = true
  · rw [if_pos hsafe]
    have hbr := (isAlwaysSafe_spec b).mp hsafe
    have htn : (Char.ofNat b).toNat = b := toNat_ofNat_of_valid _ (Or.inl (by omega))
    have hne : Char.ofNat b ≠ '%' := by
      intro he
      have h37 := congrArg Char.toNat he
      rw [htn, show Char.toNat '%' = 37 from rfl] at h37
      omega
    show pctUnquote (Char.ofNat b :: cs) = _
    rw [pctUnquote_cons_ne _ hne, htn]
  · rw [if_neg hsafe]
    show pctUnquote ('%' :: (hexDigitChar (b / 16) :: (hexDigitChar (b % 16) :: cs))) = _
    rw [pctUnquote.eq_2, if_pos rfl, hexVal_hexDigitChar _ (by omega),
      hexVal_hexDigitChar _ (by omega)]
    have harith : 16 * (b / 16) + b % 16 = b := by omega
    cases pctUnquote cs <;> simp [harith]

lemma pctUnquote_flat (bs : List Nat) (h : ∀ b ∈ bs, b < 256) :
    pctUnquote (bs.flatMap quoteByte) = some bs := by
  induction bs with
  | nil => rfl
  | cons b bs ih =>
    rw [List.flatMap_cons, pctUnquote_quoteByte b (h b (by simp)),
      ih (fun x hx => h x (by simp [hx]))]
    rfl

lemma slash_not_mem_quoteByte (b : Nat) (hb : b < 256) : '/' ∉ quoteByte b := by
  unfold quoteByte
  by_cases hsafe : isAlwaysSafe b = true
  · rw [if_pos hsafe]
    have hbr := (isAlwaysSafe_spec b).mp hsafe
    have htn : (Char.ofNat b).toNat = b := toNat_ofNat_of_valid _ (Or.inl (by omega))
    simp only [List.mem_singleton]
    intro he
    have h47 := congrArg Char.toNat he
    rw [htn, show Char.toNat '/' = 47 from rfl] at h47
    omega
  · rw [if_neg hsafe]
    intro he
    simp only [List.mem_cons, List.not_mem_nil, or_false] at he
    rcases he with he | he | he
    · have h47 := congrArg Char.toNat he
      rw [show Char.toNat '/' = 47 from rfl, show Char.toNat '%' = 37 from rfl] at h47
      omega
    · have h47 := congrArg Char.toNat he
      rw [show Char.toNat '/' = 47 from rfl] at h47
      by_cases h10 : b / 16 < 10
      · rw [hexDigitChar_toNat10 _ h10] at h47; omega
      · rw [hexDigitChar_toNat16 _ h10 (by omega)] at h47; omega
    · have h47 := congrArg Char.toNat he
      rw [show Char.toNat '/' = 47 from rfl] at h47
      by_cases h10 : b % 16 < 10
      · rw [hexDigitChar_toNat10 _ h10] at h47; omega
      · rw [hexDigitChar_toNat16 _ h10 (by omega)] at h47; omega

/-! ## Helper lemmas: completion checker and planner -/

lemma contains_iff (l : List String) (a : String) : l.contains a = true ↔ a ∈ l := by
  simp [List.contains, List.elem_iff]

lemma mem_insertPath (fs : FState) (p q : FPath) :
    p ∈ insertPath fs q ↔ p = q ∨ p ∈ fs := by
  unfold insertPath
  split_ifs with hq
  · constructor
    · intro h; exact Or.inr h
    · rintro (rfl | h); exacts [hq, h]
  · simp [or_comm, eq_comm]

lemma is_downloaded_id_eq (fs : FState) (od : FPath) (rf : List String)
    (r r' : RunInfo) (h : r.id = r'.id) :
    is_downloaded fs od rf r = is_downloaded fs od rf r' := by
  unfold is_downloaded runDir
  rw [h]

lemma is_downloaded_mono (fs0 fs1 : FState) (od : FPath) (rf : List String)
    (r : RunInfo) (hext : ∀ p ∈ fs0, p ∈ fs1)
    (h : is_downloaded fs0 od rf r = true) : is_downloaded fs1 od rf r = true := by
  unfold is_downloaded at h ⊢
  rw [List.all_eq_true] at h ⊢
  intro f hf
  have := h f hf
  unfold pexists at this ⊢
  simp only [decide_eq_true_eq] at this ⊢
  exact hext _ this

lemma mem_already_iff (runs : List RunInfo) (fs : FState) (od : FPath)
    (rf : List String) (x : String) :
    x ∈ already_downloaded runs fs od rf ↔
      ∃ r ∈ runs, r.id = x ∧ is_downloaded fs od rf r = true := by
  unfold already_downloaded
  rw [List.mem_map]
  constructor
  · rintro ⟨r, hr, rfl⟩
    rw [List.mem_filter] at hr
    exact ⟨r, hr.1, rfl, hr.2⟩
  · rintro ⟨r, hr, rfl, hd⟩
    exact ⟨r, List.mem_filter.mpr ⟨hr, hd⟩, rfl⟩

lemma runs_to_download_eq_nil (runs : List RunInfo) (fs : FState) (od : FPath)
    (rf : List String) (h : ∀ r ∈ runs, is_downloaded fs od rf r = true) :
    runs_to_download runs fs od rf = [] := by
  unfold runs_to_download
  rw [List.filter_eq_nil_iff]
  intro r hr
  simp only [Bool.not_eq_true', Bool.not_eq_false]
  rw [contains_iff, mem_already_iff]
  exact ⟨r, hr, rfl, h r hr⟩

lemma mem_runs_to_download (runs : List RunInfo) (fs : FState) (od : FPath)
    (rf : List String) (r : RunInfo) (hr : r ∈ runs)
    (hnd : is_downloaded fs od rf r = false) :
    r ∈ runs_to_download runs fs od rf ∧ r.id ∉ already_downloaded runs fs od rf := by
  have hna : r.id ∉ already_downloaded runs fs od rf := by
    rw [mem_already_iff]
    rintro ⟨r', hr', hid, hd⟩
    rw [is_downloaded_id_eq fs od rf r' r hid, hnd] at hd
    exact absurd hd (by simp)
  refine ⟨?_, hna⟩
  unfold runs_to_download
  rw [List.mem_filter]
  refine ⟨hr, ?_⟩
  simp only [Bool.not_eq_true']
  rw [← Bool.not_eq_true, contains_iff]
  exact hna

lemma pySlice_nil (stop : Option Int) : pySlice stop ([] : List RunInfo) = [] := by
  cases stop with
  | none => rfl
  | some n =>
    show (if 0 ≤ n then List.take n.toNat ([] : List RunInfo)
      else List.take (([] : List RunInfo).length - (-n).toNat) []) = []
    split_ifs <;> simp

lemma downloadRuns_dry (http : String → HttpResponse) (storageUrl : String)
    (od : FPath) (rf : List String) :
    ∀ (l : List RunInfo) (e : Effects), downloadRuns http storageUrl od rf true l e = e := by
  intro l
  induction l with
  | nil => intro e; rfl
  | cons r rest ih =>
    intro e
    rw [downloadRuns, if_pos rfl]
    exact ih e

lemma charListLe_total : ∀ as bs : List Char, (charListLe as bs || charListLe bs as) = true := by
  intro as
  induction as with
  | nil => intro bs; simp [charListLe]
  | cons a as ih =>
    intro bs
    cases bs with
    | nil => simp [charListLe]
    | cons b bs =>
      unfold charListLe
      rcases Nat.lt_trichotomy a.toNat b.toNat with h | h | h
      · simp [h, show ¬ b.toNat < a.toNat by omega]
      · simp only [show ¬ a.toNat < b.toNat by omega, show ¬ b.toNat < a.toNat by omega,
          if_false, if_neg, ite_false]
        simpa using ih bs
      · simp [h, show ¬ a.toNat < b.toNat by omega]

lemma charListLe_trans : ∀ as bs cs : List Char, charListLe as bs = true →
    charListLe bs cs = true → charListLe as cs = true := by
  intro as
  induction as with
  | nil => intro bs cs _ _; simp [charListLe]
  | cons a as ih =>
    intro bs cs hab hbc
    cases bs with
    | nil => simp [charListLe] at hab
    | cons b bs =>
      cases cs with
      | nil => simp [charListLe] at hbc
      | cons c cs =>
        unfold charListLe at hab hbc ⊢
        by_cases h1 : a.toNat < b.toNat
        · by_cases h2 : b.toNat < c.toNat
          · rw [if_pos (show a.toNat < c.toNat by omega)]
          · by_cases h3 : c.toNat < b.toNat
            · rw [if_neg h2, if_pos h3] at hbc
              exact absurd hbc (by simp)
            · rw [if_pos (show a.toNat < c.toNat by omega)]
        · by_cases h4 : b.toNat < a.toNat
          · rw [if_neg h1, if_pos h4] at hab
            exact absurd hab (by simp)
          · by_cases h2 : b.toNat < c.toNat
            · rw [if_pos (show a.toNat < c.toNat by omega)]
            · by_cases h3 : c.toNat < b.toNat
              · rw [if_neg h2, if_pos h3] at hbc
                exact absurd hbc (by simp)
              · rw [if_neg h1, if_neg h4] at hab
                rw [if_neg h2, if_neg h3] at hbc
                rw [if_neg (show ¬ a.toNat < c.toNat by omega),
                  if_neg (show ¬ c.toNat < a.toNat by omega)]
                exact ih bs cs hab hbc

lemma runIdLe_total (a b : RunInfo) : runIdLe a b = true ∨ runIdLe b a = true := by
  have h := charListLe_total a.id.data b.id.data
  rcases Bool.or_eq_true_iff.mp h with h | h
  · exact Or.inl h
  · exact Or.inr h

lemma runIdLe_trans (a b c : RunInfo) (hab : runIdLe a b = true)
    (hbc : runIdLe b c = true) : runIdLe a c = true :=
  charListLe_trans a.id.data b.id.data c.id.data hab hbc

lemma insertRun_perm (r : RunInfo) (l : List RunInfo) :
    (insertRun r l).Perm (r :: l) := by
  induction l with
  | nil => exact List.Perm.refl _
  | cons x xs ih =>
    unfold insertRun
    split_ifs with h
    · exact List.Perm.refl _
    · exact (ih.cons x).trans (List.Perm.swap r x xs)

lemma sortRuns_perm (l : List RunInfo) : (sortRuns l).Perm l := by
  induction l with
  | nil => exact List.Perm.refl _
  | cons r rs ih =>
    unfold sortRuns
    exact ((insertRun_perm r (sortRuns rs)).trans (ih.cons r))

lemma insertRun_pairwise (r : RunInfo) (l : List RunInfo)
    (h : l.Pairwise (fun a b => runIdLe a b = true)) :
    (insertRun r l).Pairwise (fun a b => runIdLe a b = true) := by
  induction l with
  | nil => simp [insertRun]
  | cons x xs ih =>
    rw [List.pairwise_cons] at h
    unfold insertRun
    split_ifs with hle
    · rw [List.pairwise_cons]
      refine ⟨?_, List.pairwise_cons.mpr h⟩
      intro b hb
      rcases List.mem_cons.mp hb with rfl | hb
      · exact hle
      · exact runIdLe_trans r x b hle (h.1 b hb)
    · rw [List.pairwise_cons]
      refine ⟨?_, ih h.2⟩
      intro b hb
      rcases List.mem_cons.mp ((insertRun_perm r xs).mem_iff.mp hb) with rfl | h1
      · rcases runIdLe_total b x with h2 | h2
        · exact absurd h2 hle
        · exact h2
      · exact h.1 b h1

lemma sortRuns_pairwise (l : List RunInfo) :
    (sortRuns l).Pairwise (fun a b => runIdLe a b = true) := by
  induction l with
  | nil => simp [sortRuns]
  | cons r rs ih =>
    unfold sortRuns
    exact insertRun_pairwise r (sortRuns rs) ih

/-! ## Claim theorems -/

/-- C5: `path_safe_id` is deterministic (equal ids give equal encodings), its
output contains no `/` character at all (hence no unescaped path separator),
and percent-decoding the output recovers the original id exactly — for every
run id, including ids containing `:`, `,`, `=` and any other reserved
character. -/
theorem path_safe_id_round_trip (id1 id2 : String) (h : id1 = id2) :
    path_safe_id id1 = path_safe_id id2 ∧
    '/' ∉ (path_safe_id id1).data ∧
    percentDecode (path_safe_id id1) = some id1 := by
  subst h
  refine ⟨rfl, ?_, ?_⟩
  · show '/' ∉ (utf8Bytes id1).flatMap quoteByte
    intro hm
    rw [List.mem_flatMap] at hm
    obtain ⟨b, hb, hmem⟩ := hm
    exact slash_not_mem_quoteByte b (utf8Bytes_lt id1 b hb) hmem
  · unfold percentDecode
    have h1 : pctUnquote (path_safe_id id1).data = some (utf8Bytes id1) :=
      pctUnquote_flat _ (utf8Bytes_lt id1)
    have h2 : utf8Decode (utf8Bytes id1) = some id1.data := utf8Decode_flat id1.data
    rw [h1]
    show (match utf8Decode (utf8Bytes id1) with
      | some cs => some (⟨cs⟩ : String)
      | none => none) = some id1
    rw [h2]

/-- C5 witness: the round trip at a concrete id containing `:`, `=`, `,`
and `/`. -/
theorem path_safe_id_round_trip_witness :
    path_safe_id "babi_qa:task=15,model=a/b" = path_safe_id "babi_qa:task=15,model=a/b" ∧
    '/' ∉ (path_safe_id "babi_qa:task=15,model=a/b").data ∧
    percentDecode (path_safe_id "babi_qa:task=15,model=a/b") =
      some "babi_qa:task=15,model=a/b" :=
  path_safe_id_round_trip "babi_qa:task=15,model=a/b" "babi_qa:task=15,model=a/b" rfl

/-- C1: the `redownload` flag is never consulted when the queue is built
(`helm.py` lines 119-127 use it only to pick a log message), so with
`redownload = true` and a fully downloaded manifest the queue is empty, not
the full manifest as the flag's own help text ("Redownload all data, even if
present already.") and the claim require. -/
theorem redownload_flag_ignored :
    planQueue true [⟨"r1", "s1"⟩] [["out", "r1", "a.json"]] ["out"] ["a.json"] none = [] ∧
    planQueue false [⟨"r1", "s1"⟩] [["out", "r1", "a.json"]] ["out"] ["a.json"] none = [] ∧
    ([⟨"r1", "s1"⟩] : List RunInfo) ≠ [] :=
  ⟨by decide, by decide, by decide⟩

/-- C2 counterexample: with an empty `required_files` set and an empty
filesystem, the source's `is_downloaded` classifies the run complete although
its local directory does not exist, refuting the claimed "iff" with the
directory-existence conjunct. -/
theorem is_downloaded_without_directory :
    is_downloaded [] ["out"] [] ⟨"r1", "s1"⟩ = true ∧
    specComplete [] ["out"] [] ⟨"r1", "s1"⟩ = false := by decide

/-- C2 (amended): a run is classified complete iff every name in
`required_files` exists directly inside `output_dir / path_safe_id(run)` —
the directory's own existence is never separately tested — and in particular
every manifest run whose directory is missing even one required file appears
in the pending queue and never in the complete set. -/
theorem completion_check_files_only (fs : FState) (od : FPath) (rf : List String)
    (manifest : List RunInfo) (r : RunInfo) (f : String) (hf : f ∈ rf)
    (hnx : pexists fs (runDir od r ++ [f]) = false) (hm : r ∈ manifest) :
    (is_downloaded fs od rf r = true ↔ ∀ g ∈ rf, pexists fs (runDir od r ++ [g]) = true) ∧
    r ∈ runs_to_download manifest fs od rf ∧
    r.id ∉ already_downloaded manifest fs od rf ∧
    r ∈ planQueue false manifest fs od rf none := by
  have hiff : is_downloaded fs od rf r = true ↔
      ∀ g ∈ rf, pexists fs (runDir od r ++ [g]) = true := by
    unfold is_downloaded
    exact List.all_eq_true
  have hnd : is_downloaded fs od rf r = false := by
    cases hcase : is_downloaded fs od rf r
    · rfl
    · exact absurd (hiff.mp hcase f hf) (by simp [hnx])
  obtain ⟨hmem, hnotin⟩ := mem_runs_to_download manifest fs od rf r hm hnd
  refine ⟨hiff, hmem, hnotin, ?_⟩
  show r ∈ sortRuns (runs_to_download manifest fs od rf)
  exact (sortRuns_perm _).mem_iff.mpr hmem

/-- C2 witness: required files `a.json`, `b.json`, a run directory holding
only `a.json`: the run is pending and not in the complete set. -/
theorem completion_check_files_only_witness :
    (⟨"r1", "s1"⟩ : RunInfo) ∈ runs_to_download [⟨"r1", "s1"⟩]
      [["out", "r1", "a.json"]] ["out"] ["a.json", "b.json"] ∧
    "r1" ∉ already_downloaded [⟨"r1", "s1"⟩] [["out", "r1", "a.json"]] ["out"]
      ["a.json", "b.json"] ∧
    (⟨"r1", "s1"⟩ : RunInfo) ∈ planQueue false [⟨"r1", "s1"⟩]
      [["out", "r1", "a.json"]] ["out"] ["a.json", "b.json"] none :=
  have h := completion_check_files_only [["out", "r1", "a.json"]] ["out"]
    ["a.json", "b.json"] [⟨"r1", "s1"⟩] ⟨"r1", "s1"⟩ "b.json" (by decide) (by decide)
    (by decide)
  ⟨h.2.1, h.2.2.1, h.2.2.2⟩

/-- C7: when no manual storage URL is supplied and discovery fails, the
`helm.py` resolver falls back to the hardcoded default and continues, but the
`helmdd/helm.py` resolver leaves `storage_url` unassigned and the invocation
dies with an `UnboundLocalError` — the failure is fatal there, contradicting
the claim. -/
theorem storage_url_fallback_divergence :
    helmddStorageUrl none none =
      Except.error "UnboundLocalError: local variable storage_url referenced before assignment" ∧
    getStorageUrl none none = "https://storage.googleapis.com/crfm-helm-public/" :=
  ⟨rfl, rfl⟩

/-- C9: with an empty required-file set every manifest run is classified
complete (the conjunction over zero files is vacuously true and the run
directory's own existence is never tested), so the pending queue is empty and
the download loop performs no fetch and no write — even on an empty
filesystem. -/
theorem empty_required_files_all_complete (manifest : List RunInfo) (fs : FState)
    (od : FPath) (maxRuns : Option Int) (http : String → HttpResponse)
    (storageUrl : String) :
    already_downloaded manifest fs od [] = manifest.map RunInfo.id ∧
    runs_to_download manifest fs od [] = [] ∧
    planQueue false manifest fs od [] maxRuns = [] ∧
    downloadRuns http storageUrl od [] false (planQueue false manifest fs od [] maxRuns)
      (initEff fs) = initEff fs := by
  have hall : ∀ r ∈ manifest, is_downloaded fs od [] r = true := by
    intro r _
    rfl
  have h2 : runs_to_download manifest fs od [] = [] :=
    runs_to_download_eq_nil manifest fs od [] hall
  have h1 : already_downloaded manifest fs od [] = manifest.map RunInfo.id := by
    unfold already_downloaded
    rw [List.filter_eq_self.mpr hall]
  have h3 : planQueue false manifest fs od [] maxRuns = [] := by
    unfold planQueue
    rw [h2]
    exact pySlice_nil maxRuns
  refine ⟨h1, h2, h3, ?_⟩
  rw [h3]
  rfl

/-- C4 counterexample: the `download.py` variant never sorts — its queue
truncates the pending list in manifest fetch order (`download.py` lines 110
and 125) — so with manifest order `b`, `a` and `max_runs = 1` the plan is
`[b]`, although `a` is pending and its id is strictly lexicographically
smaller: the plan is not the k smallest pending ids there. -/
theorem dl_plan_truncates_unsorted :
    dlPlanQueue [⟨"b"⟩, ⟨"a"⟩] [] ["o"] (some 1) = [⟨"b"⟩] ∧
    (⟨"a"⟩ : DlRunInfo) ∈ dlRunsToDownload [⟨"b"⟩, ⟨"a"⟩] [] ["o"] ∧
    charListLe "a".data "b".data = true ∧
    "a" ≠ "b" := by decide

/-- C4 (amended): in the `helm.py`/`helmdd`/`heim.py` variants — which sort
the pending list by raw id (`helm.py` line 121) before the `max_runs` slice
(line 135) — for a fixed manifest, completion state and `max_runs = k`, the
plan is the id-sorted pending list truncated to `k`: it is sorted by raw id
(code-point lexicographic), has `min k |pending|` entries, draws only from
the pending runs, and every selected run's id is `≤` the id of every pending
run left out.  The planner is a pure function of these inputs, so repeated
capped invocations select the same runs.  The `download.py` variant instead
truncates the fetch-order pending list without sorting. -/
theorem plan_sorted_truncate (manifest : List RunInfo) (fs : FState) (od : FPath)
    (rf : List String) (k : Nat) :
    (planQueue false manifest fs od rf (some (k : Int))).Pairwise
      (fun a b => runIdLe a b = true) ∧
    (planQueue false manifest fs od rf (some (k : Int))).length =
      min k (runs_to_download manifest fs od rf).length ∧
    (∀ a ∈ planQueue false manifest fs od rf (some (k : Int)),
      a ∈ runs_to_download manifest fs od rf) ∧
    (∀ b ∈ runs_to_download manifest fs od rf,
      b ∉ planQueue false manifest fs od rf (some (k : Int)) →
      ∀ a ∈ planQueue false manifest fs od rf (some (k : Int)), runIdLe a b = true) := by
  have hplan : planQueue false manifest fs od rf (some (k : Int)) =
      (sortRuns (runs_to_download manifest fs od rf)).take k := by
    unfold planQueue
    show (if (0 : Int) ≤ (k : Int) then
        (sortRuns (runs_to_download manifest fs od rf)).take ((k : Int)).toNat
      else (sortRuns (runs_to_download manifest fs od rf)).take
        ((sortRuns (runs_to_download manifest fs od rf)).length - (-(k : Int)).toNat)) = _
    rw [if_pos (by exact_mod_cast Nat.zero_le k), Int.toNat_ofNat]
  have hsorted : (sortRuns (runs_to_download manifest fs od rf)).Pairwise
      (fun a b => runIdLe a b = true) := sortRuns_pairwise _
  have hperm := sortRuns_perm (runs_to_download manifest fs od rf)
  rw [hplan]
  refine ⟨?_, ?_, ?_, ?_⟩
  · exact List.Pairwise.sublist (List.take_sublist k _) hsorted
  · rw [List.length_take, hperm.length_eq]
  · intro a ha
    exact hperm.mem_iff.mp ((List.take_sublist k _).subset ha)
  · intro b hb hbn a ha
    have hbs : b ∈ sortRuns (runs_to_download manifest fs od rf) := hperm.mem_iff.mpr hb
    have hsplit := List.take_append_drop k (sortRuns (runs_to_download manifest fs od rf))
    have hbd : b ∈ (sortRuns (runs_to_download manifest fs od rf)).drop k := by
      rcases List.mem_append.mp (show b ∈ _ ++ _ by rw [hsplit]; exact hbs) with h | h
      · exact absurd h hbn
      · exact h
    have hpw := (List.pairwise_append.mp
      (show List.Pairwise _ (_ ++ _) by rw [hsplit]; exact hsorted)).2.2
    exact hpw a ha b hbd

/-- C4 witness: with manifest ids `c`, `a` and `k = 1`, the selected run
(`a`) compares `≤` to the pending run left out (`c`). -/
theorem plan_sorted_truncate_witness :
    runIdLe ⟨"a", "s"⟩ ⟨"c", "s"⟩ = true :=
  (plan_sorted_truncate [⟨"c", "s"⟩, ⟨"a", "s"⟩] [] ["o"] ["f.json"] 1).2.2.2
    ⟨"c", "s"⟩ (by decide) (by decide) ⟨"a", "s"⟩ (by decide)

/-- C6: if the filesystem only grew since the first invocation and every run
of the first invocation's pending queue now has every required file in its
run directory, the second invocation computes an empty pending set and its
download loop performs zero fetches and zero writes. -/
theorem idempotent_resume (manifest : List RunInfo) (fs0 fs1 : FState) (od : FPath)
    (rf : List String) (http : String → HttpResponse) (storageUrl : String)
    (hext : ∀ p ∈ fs0, p ∈ fs1)
    (hdone : ∀ r ∈ runs_to_download manifest fs0 od rf, ∀ f ∈ rf,
      (runDir od r ++ [f]) ∈ fs1) :
    runs_to_download manifest fs1 od rf = [] ∧
    planQueue false manifest fs1 od rf none = [] ∧
    downloadRuns http storageUrl od rf false (planQueue false manifest fs1 od rf none)
      (initEff fs1) = initEff fs1 := by
  have hall : ∀ r ∈ manifest, is_downloaded fs1 od rf r = true := by
    intro r hr
    by_cases hd0 : is_downloaded fs0 od rf r = true
    · exact is_downloaded_mono fs0 fs1 od rf r hext hd0
    · have hnd : is_downloaded fs0 od rf r = false := by
        cases hcase : is_downloaded fs0 od rf r
        · rfl
        · exact absurd hcase hd0
      have hrp := (mem_runs_to_download manifest fs0 od rf r hr hnd).1
      unfold is_downloaded
      rw [List.all_eq_true]
      intro f hf
      unfold pexists
      simp only [decide_eq_true_eq]
      exact hdone r hrp f hf
  have h1 : runs_to_download manifest fs1 od rf = [] :=
    runs_to_download_eq_nil manifest fs1 od rf hall
  have h2 : planQueue false manifest fs1 od rf none = [] := by
    unfold planQueue
    rw [h1]
    exact pySlice_nil none
  exact ⟨h1, h2, by rw [h2]; rfl⟩

/-- C6 witness: one-run manifest, first invocation wrote the single required
file; the second invocation's pending set is empty and its loop is a no-op. -/
theorem idempotent_resume_witness :
    runs_to_download [⟨"r1", "s"⟩] [["out", "r1", "a.json"]] ["out"] ["a.json"] = [] ∧
    planQueue false [⟨"r1", "s"⟩] [["out", "r1", "a.json"]] ["out"] ["a.json"] none = [] ∧
    downloadRuns (fun _ => ⟨200, ""⟩) "u" ["out"] ["a.json"] false
      (planQueue false [⟨"r1", "s"⟩] [["out", "r1", "a.json"]] ["out"] ["a.json"] none)
      (initEff [["out", "r1", "a.json"]]) = initEff [["out", "r1", "a.json"]] :=
  idempotent_resume [⟨"r1", "s"⟩] [] [["out", "r1", "a.json"]] ["out"] ["a.json"]
    (fun _ => ⟨200, ""⟩) "u" (by decide) (by decide)

/-- C10: the `download.py` loop writes every fetched response body to the
target artifact filename without inspecting the HTTP status; consequently,
whatever the responses were (error pages included), after processing a run
all three required files exist, the run passes the completeness check, lands
in the complete set, and is excluded from any later pending queue — it is
never retried. -/
theorem unconditional_write_marks_complete (http : String → HttpResponse)
    (storageUrl : String) (od : FPath) (fs : FState) (r : DlRunInfo)
    (manifest : List DlRunInfo) (hm : r ∈ manifest) :
    (∀ f ∈ dlFiles, (dlRunDir od r ++ [f]) ∈ (dlProcessRun http storageUrl od fs r).1) ∧
    (dlProcessRun http storageUrl od fs r).2 =
      [(dlRunDir od r ++ ["run_spec.json"],
        (http (storageUrl ++ "/runs/" ++ r.id ++ "/run_spec.json")).content),
       (dlRunDir od r ++ ["scenario_state.json"],
        (http (storageUrl ++ "/runs/" ++ r.id ++ "/scenario_state.json")).content),
       (dlRunDir od r ++ ["scenario.json"],
        (http (storageUrl ++ "/runs/" ++ r.id ++ "/scenario.json")).content)] ∧
    dlIsDownloaded (dlProcessRun http storageUrl od fs r).1 od r = true ∧
    r.id ∈ dlAlready manifest (dlProcessRun http storageUrl od fs r).1 od ∧
    r ∉ dlRunsToDownload manifest (dlProcessRun http storageUrl od fs r).1 od := by
  have hmem : ∀ q : FPath, q ∈ (dlProcessRun http storageUrl od fs r).1 ↔
      q = dlRunDir od r ++ ["scenario.json"] ∨
      q = dlRunDir od r ++ ["scenario_state.json"] ∨
      q = dlRunDir od r ++ ["run_spec.json"] ∨ q = dlRunDir od r ∨ q ∈ fs := by
    intro q
    show q ∈ insertPath (insertPath (insertPath (insertPath fs (dlRunDir od r))
      (dlRunDir od r ++ ["run_spec.json"])) (dlRunDir od r ++ ["scenario_state.json"]))
      (dlRunDir od r ++ ["scenario.json"]) ↔ _
    rw [mem_insertPath, mem_insertPath, mem_insertPath, mem_insertPath]
  have hdl : dlIsDownloaded (dlProcessRun http storageUrl od fs r).1 od r = true := by
    simp only [dlIsDownloaded, pexists, Bool.and_eq_true, decide_eq_true_eq]
    refine ⟨⟨⟨?_, ?_⟩, ?_⟩, ?_⟩ <;> rw [hmem] <;> tauto
  have halready : r.id ∈ dlAlready manifest (dlProcessRun http storageUrl od fs r).1 od :=
    List.mem_map.mpr ⟨r, List.mem_filter.mpr ⟨hm, hdl⟩, rfl⟩
  refine ⟨?_, rfl, hdl, halready, ?_⟩
  · intro f hf
    have hf3 : f = "run_spec.json" ∨ f = "scenario_state.json" ∨ f = "scenario.json" := by
      simpa [dlFiles] using hf
    rw [hmem]
    rcases hf3 with rfl | rfl | rfl
    · tauto
    · tauto
    · tauto
  · unfold dlRunsToDownload
    rw [List.mem_filter]
    rintro ⟨_, hpred⟩
    rw [Bool.not_eq_true', ← Bool.not_eq_true, contains_iff] at hpred
    exact hpred halready

/-- C10 witness: every fetch returned 404, yet the run is classified complete
and dropped from the pending queue. -/
theorem unconditional_write_marks_complete_witness :
    dlIsDownloaded (dlProcessRun (fun _ => ⟨404, "Not Found"⟩) "u" ["o"] [] ⟨"r1"⟩).1
      ["o"] ⟨"r1"⟩ = true ∧
    (⟨"r1"⟩ : DlRunInfo) ∉ dlRunsToDownload [⟨"r1"⟩]
      (dlProcessRun (fun _ => ⟨404, "Not Found"⟩) "u" ["o"] [] ⟨"r1"⟩).1 ["o"] :=
  have h := unconditional_write_marks_complete (fun _ => ⟨404, "Not Found"⟩) "u" ["o"] []
    ⟨"r1"⟩ [⟨"r1"⟩] (by decide)
  ⟨h.2.2.1, h.2.2.2.2⟩

/-- C3 counterexample: a dry run still creates the top-level output
directory (`output_dir.mkdir(parents=True, exist_ok=True)` at `helm.py`
line 134 runs before the per-run dry-run check at line 136), so "creates no
directory" is false. -/
theorem dry_run_creates_output_dir :
    (helmRun "v1" none (some "u") false none true ["a.json"] none none (some ["r1"])
      (fun _ => "v1") (fun _ => ⟨200, "x"⟩) []).eff.createdDirs = [["helm-data", "v1"]] ∧
    [["helm-data", "v1"]] ≠ ([] : List FPath) :=
  ⟨by decide, by decide⟩

/-- C3 (amended): with `dry_run = true` no artifact is fetched, no file is
written and no run directory is created — the only directory that may be
created is the top-level output directory, which dry and non-dry invocations
alike create — while the reported counts (runs found online, runs already
downloaded, runs to download) equal those of the non-dry invocation against
the same state. -/
theorem dry_run_reporting_pure (releaseArg : String) (outputDirArg : Option FPath)
    (storageArg : Option String) (redownload : Bool) (maxRuns : Option Int)
    (runFiles : List String) (autoRelease autoStorage : Option String)
    (names : List String) (suites : String → String) (http : String → HttpResponse)
    (fs0 : FState) (release : String)
    (hrel : (if releaseArg = "latest" then autoRelease else some releaseArg) = some release) :
    (helmRun releaseArg outputDirArg storageArg redownload maxRuns true runFiles
        autoRelease autoStorage (some names) suites http fs0).found =
      (helmRun releaseArg outputDirArg storageArg redownload maxRuns false runFiles
        autoRelease autoStorage (some names) suites http fs0).found ∧
    (helmRun releaseArg outputDirArg storageArg redownload maxRuns true runFiles
        autoRelease autoStorage (some names) suites http fs0).already =
      (helmRun releaseArg outputDirArg storageArg redownload maxRuns false runFiles
        autoRelease autoStorage (some names) suites http fs0).already ∧
    (helmRun releaseArg outputDirArg storageArg redownload maxRuns true runFiles
        autoRelease autoStorage (some names) suites http fs0).toDownload =
      (helmRun releaseArg outputDirArg storageArg redownload maxRuns false runFiles
        autoRelease autoStorage (some names) suites http fs0).toDownload ∧
    (helmRun releaseArg outputDirArg storageArg redownload maxRuns true runFiles
        autoRelease autoStorage (some names) suites http fs0).eff.written = [] ∧
    (helmRun releaseArg outputDirArg storageArg redownload maxRuns true runFiles
        autoRelease autoStorage (some names) suites http fs0).eff.artifactFetches = [] ∧
    (∀ d ∈ (helmRun releaseArg outputDirArg storageArg redownload maxRuns true runFiles
        autoRelease autoStorage (some names) suites http fs0).eff.createdDirs,
      d = outputDirArg.getD ["helm-data", release]) ∧
    (helmRun releaseArg outputDirArg storageArg redownload maxRuns true runFiles
        autoRelease autoStorage (some names) suites http fs0).eff.fs =
      insertPath fs0 (outputDirArg.getD ["helm-data", release]) := by
  simp only [helmRun, hrel, downloadRuns_dry]
  by_cases hc : outputDirArg.getD ["helm-data", release] ∈ fs0
  · simp [mkdirRec, initEff, pexists, insertPath, hc]
  · simp [mkdirRec, initEff, pexists, insertPath, hc]

/-- C3 witness: dry and non-dry invocations report the same counts while the
dry one writes and fetches nothing. -/
theorem dry_run_reporting_pure_witness :
    (helmRun "v1" none (some "u") false none true ["a.json"] none none (some ["r1"])
      (fun _ => "v1") (fun _ => ⟨200, "x"⟩) []).eff.written = [] ∧
    (helmRun "v1" none (some "u") false none true ["a.json"] none none (some ["r1"])
      (fun _ => "v1") (fun _ => ⟨200, "x"⟩) []).eff.artifactFetches = [] ∧
    (helmRun "v1" none (some "u") false none true ["a.json"] none none (some ["r1"])
      (fun _ => "v1") (fun _ => ⟨200, "x"⟩) []).found =
      (helmRun "v1" none (some "u") false none false ["a.json"] none none (some ["r1"])
        (fun _ => "v1") (fun _ => ⟨200, "x"⟩) []).found ∧
    (helmRun "v1" none (some "u") false none true ["a.json"] none none (some ["r1"])
      (fun _ => "v1") (fun _ => ⟨200, "x"⟩) []).toDownload =
      (helmRun "v1" none (some "u") false none false ["a.json"] none none (some ["r1"])
        (fun _ => "v1") (fun _ => ⟨200, "x"⟩) []).toDownload :=
  have h := dry_run_reporting_pure "v1" none (some "u") false none ["a.json"] none none
    ["r1"] (fun _ => "v1") (fun _ => ⟨200, "x"⟩) [] "v1" rfl
  ⟨h.2.2.2.1, h.2.2.2.2.1, h.1, h.2.2.1⟩

/-- C8: when the `run_specs.json` response does not parse (the
`json.JSONDecodeError` branch of `helm.py` lines 85-93), the invocation ends
with exit code 1 having performed zero artifact fetches, written zero files,
and left the filesystem untouched — the failure happens before the download
phase ever starts. -/
theorem manifest_parse_failure_halts (releaseArg : String) (outputDirArg : Option FPath)
    (storageArg : Option String) (redownload : Bool) (maxRuns : Option Int)
    (dryRun : Bool) (runFiles : List String) (autoRelease autoStorage : Option String)
    (suites : String → String) (http : String → HttpResponse) (fs0 : FState)
    (release : String)
    (hrel : (if releaseArg = "latest" then autoRelease else some releaseArg) = some release) :
    (helmRun releaseArg outputDirArg storageArg redownload maxRuns dryRun runFiles
        autoRelease autoStorage none suites http fs0).exitCode = 1 ∧
    (helmRun releaseArg outputDirArg storageArg redownload maxRuns dryRun runFiles
        autoRelease autoStorage none suites http fs0).eff.artifactFetches = [] ∧
    (helmRun releaseArg outputDirArg storageArg redownload maxRuns dryRun runFiles
        autoRelease autoStorage none suites http fs0).eff.written = [] ∧
    (helmRun releaseArg outputDirArg storageArg redownload maxRuns dryRun runFiles
        autoRelease autoStorage none suites http fs0).eff.fs = fs0 ∧
    (helmRun releaseArg outputDirArg storageArg redownload maxRuns dryRun runFiles
        autoRelease autoStorage none suites http fs0).eff.createdDirs = [] := by
  simp [helmRun, hrel, initEff]

/-- C8 witness: a fixed release, an unparsable manifest response: exit code 1
and no effects. -/
theorem manifest_parse_failure_halts_witness :
    (helmRun "v1" none (some "u") false none false ["a.json"] none none none
      (fun _ => "v1") (fun _ => ⟨200, "<html>"⟩) []).exitCode = 1 ∧
    (helmRun "v1" none (some "u") false none false ["a.json"] none none none
      (fun _ => "v1") (fun _ => ⟨200, "<html>"⟩) []).eff.artifactFetches = [] ∧
    (helmRun "v1" none (some "u") false none false ["a.json"] none none none
      (fun _ => "v1") (fun _ => ⟨200, "<html>"⟩) []).eff.written = [] ∧
    (helmRun "v1" none (some "u") false none false ["a.json"] none none none
      (fun _ => "v1") (fun _ => ⟨200, "<html>"⟩) []).eff.fs = [] ∧
    (helmRun "v1" none (some "u") false none false ["a.json"] none none none
      (fun _ => "v1") (fun _ => ⟨200, "<html>"⟩) []).eff.createdDirs = [] :=
  manifest_parse_failure_halts "v1" none (some "u") false none false ["a.json"] none none
    (fun _ => "v1") (fun _ => ⟨200, "<html>"⟩) [] "v1" rfl
